import Mathlib

/-!
Verification of the SHP preference-data pipeline, the chat-bot checkpoint
resolver, and the summarization evaluation loop of this repository, by a
shallow embedding of the relevant Python functions into Lean.

External collaborators (the HuggingFace tokenizer, the LDA splitter, the
pickle module, the filesystem and the rouge scorer) are modelled as
parameters or as explicit state, exactly at the interface the source uses.
-/

namespace FedBiscuit

/-- A record of the deduplicating loader `_download_shp`: the fields it
projects are `instruction` and `category`. -/
structure RawRec where
  instruction : String
  category : String
deriving DecidableEq, Repr

/-- A comparison record of `_download_shp_cmpr`: fields `instruction`,
`output_A`, `output_B`, `choice`, `category`. -/
structure CmpSample where
  instruction : String
  output_A : String
  output_B : String
  choice : Int
  category : String
deriving DecidableEq, Repr

/-- A comparison record after `shp_dataset` has merged the client assignment
back in: `domain` holds the original category and `category` the synthetic
client label. -/
structure EnrichedSample where
  instruction : String
  output_A : String
  output_B : String
  choice : Int
  category : String
  domain : String
deriving DecidableEq, Repr

/-- Python exceptions the embedded pipeline can raise. `keyError` is the
uncaught failure of a dict subscript; `unassignedInstructionError` is the
dedicated error the spec asks for (it never occurs in the source). -/
inductive PyErr where
  | keyError (key : String)
  | unassignedInstructionError (key : String)
deriving DecidableEq, Repr

/-! ## Deduplicating loader `_download_shp` (shp.py lines 104-127)

The Python code threads ONE `instructions` list through the three splits in
the order train, validation, test; a record is kept, and its instruction
appended to `instructions`, exactly when its instruction is not yet in the
list. -/

/-- One pass of the dedup loop of `_download_shp`: `seen` is the
`instructions` accumulator; returns the final accumulator and the kept
records of this split, in order. -/
def dedupStep : List String → List RawRec → List String × List RawRec
  | seen, [] => (seen, [])
  | seen, r :: rs =>
    if r.instruction ∈ seen then dedupStep seen rs
    else
      let rest := dedupStep (seen ++ [r.instruction]) rs
      (rest.1, r :: rest.2)

/-- The in-memory result of `_download_shp` in the build branch: the dedup
accumulator is shared across the splits, processed train, validation, test. -/
def downloadShpBuild (train val test : List RawRec) :
    List RawRec × List RawRec × List RawRec :=
  let s1 := dedupStep [] train
  let s2 := dedupStep s1.1 val
  let s3 := dedupStep s2.1 test
  (s1.2, s2.2, s3.2)

/-- First-occurrence deduplication of a single list (the dedup loop run on
one split with an empty accumulator). The claim about `_download_shp` reads
the dedup as this function applied to each split independently. -/
def dedupSplitAlone (l : List RawRec) : List RawRec :=
  (dedupStep [] l).2

/-! ## Client-assignment map of `shp_dataset` (shp.py lines 142-148)

The LDA splitter is an external collaborator; its output (a list of record
sublists, one per client) is a parameter. `inst_client_map` is a Python
dict built by assignment in iteration order, so a later assignment to the
same instruction overrides an earlier one: we model it as an association
list with newest binding first. -/

/-- Insert the assignments `instruction -> idx` of one client sublist, newest
binding first. -/
def insertClientBindings (acc : List (String × Nat)) (idx : Nat)
    (sub : List RawRec) : List (String × Nat) :=
  sub.foldl (fun a s => (s.instruction, idx) :: a) acc

/-- Scan the splitter output, recording `instruction -> client_index`
(shp.py lines 145-148). -/
def buildInstClientMapGo (idx : Nat) (acc : List (String × Nat)) :
    List (List RawRec) → List (String × Nat)
  | [] => acc
  | sub :: rest => buildInstClientMapGo (idx + 1) (insertClientBindings acc idx sub) rest

/-- The `inst_client_map` dict built from the splitter output. -/
def buildInstClientMap (splits : List (List RawRec)) : List (String × Nat) :=
  buildInstClientMapGo 0 [] splits

/-- Dict lookup: the most recent binding wins. -/
def lookupMap (m : List (String × Nat)) (k : String) : Option Nat :=
  (m.find? (fun p => p.1 == k)).map (fun p => p.2)

/-! ## Merging the client assignment into the comparison records
(shp.py lines 150-154)

`sample['domain'] = sample['category']` then
`sample['category'] = f"Client_{inst_client_map[sample['instruction']]}"`.
The dict subscript on a missing instruction raises a `KeyError`. -/

/-- The successful rewrite of one record: `domain` keeps the original
category, `category` becomes the synthetic client label. -/
def enrichWith (s : CmpSample) (idx : Nat) : EnrichedSample :=
  { instruction := s.instruction
    output_A := s.output_A
    output_B := s.output_B
    choice := s.choice
    category := "Client_" ++ toString idx
    domain := s.category }

/-- Rewrite one record, raising `KeyError` when the instruction has no
binding in `inst_client_map`. -/
def enrichSample (m : List (String × Nat)) (s : CmpSample) :
    Except PyErr EnrichedSample :=
  match lookupMap m s.instruction with
  | none => .error (.keyError s.instruction)
  | some idx => .ok (enrichWith s idx)

/-- The merge loop over `list_train_dict`: the first missing instruction
aborts with its `KeyError`. -/
def enrichSamples (m : List (String × Nat)) :
    List CmpSample → Except PyErr (List EnrichedSample)
  | [] => .ok []
  | s :: rest =>
    match enrichSample m s with
    | .error e => .error e
    | .ok e =>
      match enrichSamples m rest with
      | .error e2 => .error e2
      | .ok es => .ok (e :: es)

/-! ## Token-budget filter and `shp_dataset` (shp.py lines 130-177)

The tokenizer is an external collaborator `tok : String → List Int`
returning the `input_ids`; only lengths are used. -/

/-- Combined tokenized length of a record (shp.py lines 159-161). -/
def tokBudget (tok : String → List Int) (s : EnrichedSample) : Nat :=
  (tok s.instruction).length + (tok s.output_A).length + (tok s.output_B).length

/-- Keep condition of the token-budget filter (shp.py line 162). -/
def budgetKeep (tok : String → List Int) (s : EnrichedSample) : Bool :=
  tokBudget tok s ≤ 512

/-- `shp_dataset` with the downloaded record lists and the splitter output as
parameters: merge the client assignment into the train records, then keep
the train records within the 512-token budget; the val and test lists pass
through. The diagnostic prints have no effect on the result. -/
def shpDataset (tok : String → List Int) (splits : List (List RawRec))
    (train val test : List CmpSample) :
    Except PyErr (List EnrichedSample × List CmpSample × List CmpSample) :=
  match enrichSamples (buildInstClientMap splits) train with
  | .error e => .error e
  | .ok enriched => .ok (enriched.filter (budgetKeep tok), val, test)

/-! ## Letter-choice shaper (shp.py lines 313-325)

The build branch of `load_shp_cmp_dataset_by_choice`: the train list is
augmented with a mirrored deep copy of every record, then the integer
choice of every record of all three lists is replaced by the string
`" " + chr(choice + ord("A"))`. -/

/-- The mirrored copy of a record: sides swapped, choice flipped
(shp.py lines 316-319). -/
def mirrorSample (s : EnrichedSample) : EnrichedSample :=
  { s with output_A := s.output_B, output_B := s.output_A, choice := 1 - s.choice }

/-- The train list after augmentation (shp.py line 320). -/
def augmentTrain (train : List EnrichedSample) : List EnrichedSample :=
  train ++ train.map mirrorSample

/-- `" " + chr(choice + ord("A"))` (shp.py line 325). -/
def renderChoice (c : Int) : String :=
  String.push " " (Char.ofNat (c + 65).toNat)

/-- A record whose choice has been rendered as a letter string. -/
structure RenderedSample where
  instruction : String
  output_A : String
  output_B : String
  choice : String
  category : String
  domain : String
deriving DecidableEq, Repr

/-- A val/test record (never enriched) whose choice has been rendered. -/
structure RenderedCmpSample where
  instruction : String
  output_A : String
  output_B : String
  choice : String
  category : String
deriving DecidableEq, Repr

/-- Render the choice of an enriched (train) record. -/
def renderSample (s : EnrichedSample) : RenderedSample :=
  { instruction := s.instruction, output_A := s.output_A, output_B := s.output_B
    choice := renderChoice s.choice, category := s.category, domain := s.domain }

/-- Render the choice of a raw (val/test) record. -/
def renderCmpSample (s : CmpSample) : RenderedCmpSample :=
  { instruction := s.instruction, output_A := s.output_A, output_B := s.output_B
    choice := renderChoice s.choice, category := s.category }

/-- The shaping step of `load_shp_cmp_dataset_by_choice` on the three lists
returned by `shp_dataset`: mirror-augment the train list only, then render
every choice. -/
def shapeByChoice (train : List EnrichedSample) (val test : List CmpSample) :
    List RenderedSample × List RenderedCmpSample × List RenderedCmpSample :=
  ((augmentTrain train).map renderSample,
   val.map renderCmpSample,
   test.map renderCmpSample)

/-! ## `load_rlhf_dataset` (shp.py lines 180-196) -/

/-- The split relabeling of `load_rlhf_dataset`, taking the val and test
lists returned by `_download_shp` (the original train list is discarded). -/
def loadRlhfDataset (listVal listTest : List RawRec) (maxNumTest : Int) :
    List RawRec × List RawRec × List RawRec :=
  let train := listVal ++ listTest
  let val := listTest.take (listTest.length / 2)
  let test := listTest.drop (listTest.length / 2)
  if maxNumTest > 0 then
    (train, val.take maxNumTest.toNat, test.take maxNumTest.toNat)
  else
    (train, val, test)

/-- `load_rlhf_dataset` composed with the dedup loader `_download_shp`. -/
def loadRlhfFull (rawTrain rawVal rawTest : List RawRec) (maxNumTest : Int) :
    List RawRec × List RawRec × List RawRec :=
  let d := downloadShpBuild rawTrain rawVal rawTest
  loadRlhfDataset d.2.1 d.2.2 maxNumTest

/-! ## Tokenized-dataset cache
(shp.py lines 208-276, `load_comparison_dataset`, and lines 288-358,
`load_shp_cmp_dataset_by_choice`)

`LLMDataset` and `LLMComparisonDataset` live outside the pipeline source
(in `llm_dataset.py`); the source only reads and reassigns their
`input_ids` attributes, so they are modelled by exactly those fields, and
the build of the three datasets (shp_dataset plus tokenization) is a
parameter. Pickle files are modelled as `Option`-valued slots of an
explicit cache state; serialization is the identity on values. -/

/-- The observable part of an `LLMDataset`: the per-example token-id
sequences. -/
structure LLMDatasetM where
  input_ids : List (List Int)
deriving DecidableEq, Repr

/-- The observable part of an `LLMComparisonDataset`: a win and a lose
sub-dataset with index correspondence. -/
structure LLMComparisonDatasetM where
  win_dataset : LLMDatasetM
  lose_dataset : LLMDatasetM
deriving DecidableEq, Repr

/-- The three pickle files of `load_comparison_dataset` for one cache key. -/
structure CmpCache where
  trainFile : Option LLMComparisonDatasetM
  valFile : Option LLMComparisonDatasetM
  testFile : Option LLMComparisonDatasetM
deriving DecidableEq, Repr

/-- The three pickle files of `load_shp_cmp_dataset_by_choice`. -/
structure ChoiceCache where
  trainFile : Option LLMDatasetM
  valFile : Option LLMDatasetM
  testFile : Option LLMDatasetM
deriving DecidableEq, Repr

/-- Truncate the stored token-id sequences to the first `m` entries
(`input_ids[:max_num_test]`). -/
def shrinkLLM (m : Int) (d : LLMDatasetM) : LLMDatasetM :=
  ⟨d.input_ids.take m.toNat⟩

/-- Truncate both sub-datasets of a comparison dataset
(shp.py lines 265-272). -/
def shrinkCmp (m : Int) (d : LLMComparisonDatasetM) : LLMComparisonDatasetM :=
  ⟨shrinkLLM m d.win_dataset, shrinkLLM m d.lose_dataset⟩

/-- The `if max_num_test > 0` guard around the truncation. -/
def shrinkCmpIf (m : Int) (d : LLMComparisonDatasetM) : LLMComparisonDatasetM :=
  if m > 0 then shrinkCmp m d else d

/-- The guard for the single-dataset shape. -/
def shrinkLLMIf (m : Int) (d : LLMDatasetM) : LLMDatasetM :=
  if m > 0 then shrinkLLM m d else d

/-- `load_comparison_dataset`: if all three pickle files exist they are
deserialized, otherwise the build result `built` is used and serialized
into all three files; the val and test datasets are then truncated when
`m > 0`. Returns the dataset triple, the new cache state, and whether the
build pipeline ran. -/
def loadComparisonDataset (st : CmpCache)
    (built : LLMComparisonDatasetM × LLMComparisonDatasetM × LLMComparisonDatasetM)
    (m : Int) :
    (LLMComparisonDatasetM × LLMComparisonDatasetM × LLMComparisonDatasetM) ×
      CmpCache × Bool :=
  match st.trainFile, st.valFile, st.testFile with
  | some tr, some va, some te =>
    ((tr, shrinkCmpIf m va, shrinkCmpIf m te), st, false)
  | _, _, _ =>
    ((built.1, shrinkCmpIf m built.2.1, shrinkCmpIf m built.2.2),
     ⟨some built.1, some built.2.1, some built.2.2⟩, true)

/-- `load_shp_cmp_dataset_by_choice`: the same cache discipline with the
single-dataset shape (shp.py lines 301-358). -/
def loadChoiceDataset (st : ChoiceCache)
    (built : LLMDatasetM × LLMDatasetM × LLMDatasetM) (m : Int) :
    (LLMDatasetM × LLMDatasetM × LLMDatasetM) × ChoiceCache × Bool :=
  match st.trainFile, st.valFile, st.testFile with
  | some tr, some va, some te =>
    ((tr, shrinkLLMIf m va, shrinkLLMIf m te), st, false)
  | _, _, _ =>
    ((built.1, shrinkLLMIf m built.2.1, shrinkLLMIf m built.2.2),
     ⟨some built.1, some built.2.1, some built.2.2⟩, true)

/-! ## FSChatBot checkpoint resolution (fschat.py lines 31-40 and 82-117)

`os.path.exists` is a parameter `ex`; the candidate path is the prefix
string concatenated with the checkpoint basename. -/

/-- `range(num_ckpt, -1, -1)`: the descending list `[n, n-1, ..., 0]`. -/
def rangeDesc : Nat → List Nat
  | 0 => [0]
  | n + 1 => (n + 1) :: rangeDesc n

/-- The candidate prefix list built in `FSChatBot.__init__`
(fschat.py lines 31-34): `final_`, then the round prefixes descending,
then the empty string. -/
def candList (totalRound saveFreq : Nat) : List String :=
  "final_" :: ((rangeDesc (totalRound / saveFreq)).map
    (fun i => toString (i * saveFreq) ++ "_") ++ [""])

/-- The probing loop of `next_model` (fschat.py lines 82-86): the first
candidate whose file exists, with the candidates remaining after it. -/
def findCkpt : List String → (String → Bool) → String →
    Option (String × List String)
  | [], _, _ => none
  | p :: ps, ex, fn => if ex (p ++ fn) then some (p, ps) else findCkpt ps ex fn

/-- Outcome of one `next_model` call: a checkpoint is loaded and the
candidate list shrinks past it; or no candidate exists and the raw model is
used (candidate list cleared); or the candidate list was exhausted and
`ValueError` is raised. -/
inductive NextOutcome where
  | loaded (pre : String) (rest : List String)
  | rawFallback
  | error
deriving DecidableEq, Repr

/-- `next_model` (fschat.py lines 82-117) as a function of the current
candidate list: load the first existing checkpoint; otherwise fall back to
the raw model when more than one candidate remains, else raise. -/
def nextModel (cands : List String) (ex : String → Bool) (fn : String) :
    NextOutcome :=
  match findCkpt cands ex fn with
  | some pr => .loaded pr.1 pr.2
  | none => if cands.length > 1 then .rawFallback else .error

/-- `FSChatBot.__init__` with `use_raw=False`: build the candidate list and
run `next_model` once. -/
def initOutcome (totalRound saveFreq : Nat) (ex : String → Bool)
    (fn : String) : NextOutcome :=
  nextModel (candList totalRound saveFreq) ex fn

/-! ## Summarization evaluation loop (eval_summarization.py lines 58-113)

One item per batch (`w=1`). Generation and scoring are external and
fallible: `f item` returns the completion and the rendered score, or the
exception text. Each processed item appends its display block to the
results file and flushes; the aggregate line and the JSON dump happen only
after the loop, inside the same `try`, and the `except` only logs. -/

/-- A test item of the TLDR evaluation. -/
structure EvalItem where
  subreddit : String
  title : String
  post : String
  summary : String
deriving DecidableEq, Repr

/-- The display block written (and flushed) for one scored item, including
the trailing separator line. -/
def entryString (it : EvalItem) (comp score : String) : String :=
  "Subreddit: r/" ++ it.subreddit ++ "\n\n" ++
  "Title:\n" ++ it.title ++ "\n\n" ++
  "Post:\n" ++ it.post ++ "\n\n" ++
  "Human summary:\n" ++ it.summary ++ "\n\n" ++
  "Model-generated summary 0:\n" ++ comp ++ "\n\n" ++
  "Score:\n" ++ score ++ "\n\n" ++
  "==========================\n\n"

/-- The observable outcome of `main`: the flushed per-item blocks, the
accumulated scores, and whether the JSON dump and the aggregate line were
written. -/
structure EvalState where
  entries : List String
  scores : List String
  jsonDumped : Bool
  aggregateWritten : Bool
deriving DecidableEq, Repr

/-- The scoring loop: process items until the first exception; `true` means
the loop finished without one. -/
def runEvalLoop (f : EvalItem → Except String (String × String)) :
    List EvalItem → List String → List String →
    List String × List String × Bool
  | [], acc, sc => (acc, sc, true)
  | it :: rest, acc, sc =>
    match f it with
    | .error _ => (acc, sc, false)
    | .ok p => runEvalLoop f rest (acc ++ [entryString it p.1 p.2]) (sc ++ [p.2])

/-- The `try`/`except` body of `main`: on an exception the loop's flushed
blocks survive, the JSON dump and the aggregate line are skipped, and the
process still returns normally (the `except` only prints). -/
def evalMain (f : EvalItem → Except String (String × String))
    (items : List EvalItem) : EvalState :=
  let r := runEvalLoop f items [] []
  { entries := r.1, scores := r.2.1, jsonDumped := r.2.2,
    aggregateWritten := r.2.2 }

/-- The per-item block produced by `f` when it succeeds on the item. -/
def okEntry (f : EvalItem → Except String (String × String))
    (it : EvalItem) : Option String :=
  match f it with
  | .ok p => some (entryString it p.1 p.2)
  | .error _ => none

/-! ## Theorems -/

/-- C1: in the letter-choice shaper, the shaped train list is the render of
the original records followed by their mirrored copies, so it has exactly
twice the filtered length; every mirrored copy swaps `output_A`/`output_B`
and replaces the choice by `1 - choice`; choice 0 renders as `" A"` and
choice 1 as `" B"`; the val and test lists are rendered without
mirroring. -/
theorem letter_choice_mirroring (train : List EnrichedSample)
    (val test : List CmpSample) :
    (shapeByChoice train val test).1.length = 2 * train.length ∧
    (shapeByChoice train val test).1 = (augmentTrain train).map renderSample ∧
    (augmentTrain train).take train.length = train ∧
    (augmentTrain train).drop train.length = train.map mirrorSample ∧
    (∀ s : EnrichedSample, (mirrorSample s).choice = 1 - s.choice ∧
      (mirrorSample s).output_A = s.output_B ∧
      (mirrorSample s).output_B = s.output_A ∧
      (mirrorSample s).instruction = s.instruction) ∧
    renderChoice 0 = " A" ∧ renderChoice 1 = " B" ∧
    (shapeByChoice train val test).2.1 = val.map renderCmpSample ∧
    (shapeByChoice train val test).2.2 = test.map renderCmpSample := by
  refine ⟨?_, rfl, ?_, ?_, ?_, by rfl, by rfl, rfl, rfl⟩
  · simp [shapeByChoice, augmentTrain, Nat.two_mul]
  · simp [augmentTrain]
  · simp [augmentTrain]
  · intro s
    exact ⟨rfl, rfl, rfl, rfl⟩

/-- C2: the token-budget filter of `shp_dataset` keeps an (enriched)
training record iff the tokenized lengths of its instruction, `output_A`
and `output_B` sum to at most 512; the val and test lists are returned
unfiltered. -/
theorem token_budget_filter (tok : String → List Int)
    (splits : List (List RawRec)) (train val test : List CmpSample)
    (en : List EnrichedSample)
    (h : enrichSamples (buildInstClientMap splits) train = .ok en) :
    shpDataset tok splits train val test =
      .ok (en.filter (budgetKeep tok), val, test) ∧
    (∀ s ∈ en.filter (budgetKeep tok), tokBudget tok s ≤ 512) ∧
    (∀ s ∈ en, tokBudget tok s ≤ 512 → s ∈ en.filter (budgetKeep tok)) ∧
    (∀ s ∈ en, 512 < tokBudget tok s → s ∉ en.filter (budgetKeep tok)) := by
  refine ⟨by simp [shpDataset, h], ?_, ?_, ?_⟩
  · intro s hs
    have := (List.mem_filter.mp hs).2
    simpa [budgetKeep] using this
  · intro s hs hb
    exact List.mem_filter.mpr ⟨hs, by simpa [budgetKeep] using hb⟩
  · intro s _ hb hmem
    have := (List.mem_filter.mp hmem).2
    simp [budgetKeep] at this
    omega

/-- C2 witness: the filter evaluated at a concrete tokenizer and record. -/
theorem token_budget_filter_witness :
    shpDataset (fun _ => []) [[⟨"x", "c"⟩]] [⟨"x", "a", "b", 0, "c"⟩] [] [] =
      .ok ([⟨"x", "a", "b", 0, "Client_0", "c"⟩].filter
        (budgetKeep (fun _ => [])), [], []) :=
  (token_budget_filter (fun _ => []) [[⟨"x", "c"⟩]] [⟨"x", "a", "b", 0, "c"⟩]
    [] [] [⟨"x", "a", "b", 0, "Client_0", "c"⟩] rfl).1

/-- If every record's instruction has a binding, the merge succeeds and
rewrites each record with its client index. -/
theorem enrichSamples_ok_of_all_mapped (m : List (String × Nat)) :
    ∀ recs : List CmpSample,
    (∀ r ∈ recs, (lookupMap m r.instruction).isSome) →
    ∃ es, enrichSamples m recs = .ok es ∧
      ∀ i : Nat, es.get? i = (recs.get? i).bind
        (fun r => (lookupMap m r.instruction).map (enrichWith r)) := by
  intro recs
  induction recs with
  | nil =>
    intro _
    exact ⟨[], rfl, fun i => by cases i <;> rfl⟩
  | cons s rest ih =>
    intro h
    obtain ⟨c, hc⟩ := Option.isSome_iff_exists.mp (h s (by simp))
    obtain ⟨es, hes, hget⟩ := ih (fun r hr => h r (by simp [hr]))
    refine ⟨enrichWith s c :: es, ?_, ?_⟩
    · simp [enrichSamples, enrichSample, hc, hes]
    · intro i
      cases i with
      | zero => simp [hc]
      | succ j => simpa using hget j

/-- A failing merge fails with the `KeyError` of an unmapped instruction of
the input. -/
theorem enrichSamples_error_mem (m : List (String × Nat)) :
    ∀ recs : List CmpSample, ∀ e,
    enrichSamples m recs = .error e →
    ∃ r ∈ recs, e = .keyError r.instruction ∧
      lookupMap m r.instruction = none := by
  intro recs
  induction recs with
  | nil => intro e h; simp [enrichSamples] at h
  | cons s rest ih =>
    intro e h
    cases hl : lookupMap m s.instruction with
    | none =>
      refine ⟨s, by simp, ?_, hl⟩
      simp [enrichSamples, enrichSample, hl] at h
      exact h.symm
    | some c =>
      simp only [enrichSamples, enrichSample, hl] at h
      cases hrest : enrichSamples m rest with
      | error e2 =>
        rw [hrest] at h
        obtain ⟨r, hr, he, hn⟩ := ih e2 hrest
        cases h
        exact ⟨r, by simp [hr], he, hn⟩
      | ok es => rw [hrest] at h; cases h

/-- C3 counterexample: on a record whose instruction has no client binding,
the merge of `shp_dataset` fails with the raw `KeyError` of the dict
subscript, not with a dedicated unassigned-instruction error. -/
theorem unassigned_instruction_cex :
    enrichSamples [] [⟨"x", "a", "b", 0, "cat"⟩] =
      .error (.keyError "x") ∧
    enrichSamples [] [⟨"x", "a", "b", 0, "cat"⟩] ≠
      .error (.unassignedInstructionError "x") := by
  refine ⟨rfl, ?_⟩
  rw [show enrichSamples [] [⟨"x", "a", "b", 0, "cat"⟩] =
    Except.error (PyErr.keyError "x") from rfl]
  intro h
  injection h with h2
  exact PyErr.noConfusion h2

/-- C3 amended: the merge rewrites every mapped record's `category` to the
synthetic label `Client_i` and preserves the original category in `domain`;
an unmapped instruction makes the merge fail with a plain `KeyError` naming
that instruction (there is no dedicated unassigned-instruction error in the
code). -/
theorem client_merge_amended (m : List (String × Nat))
    (recs : List CmpSample) :
    ((∀ r ∈ recs, (lookupMap m r.instruction).isSome) →
      ∃ es, enrichSamples m recs = .ok es ∧
        ∀ i : Nat, es.get? i = (recs.get? i).bind
          (fun r => (lookupMap m r.instruction).map (enrichWith r))) ∧
    (∀ e, enrichSamples m recs = .error e →
      ∃ r ∈ recs, e = .keyError r.instruction ∧
        lookupMap m r.instruction = none) ∧
    (∀ (s : CmpSample) (idx : Nat),
      (enrichWith s idx).category = "Client_" ++ toString idx ∧
      (enrichWith s idx).domain = s.category ∧
      (enrichWith s idx).instruction = s.instruction ∧
      (enrichWith s idx).output_A = s.output_A ∧
      (enrichWith s idx).output_B = s.output_B ∧
      (enrichWith s idx).choice = s.choice) :=
  ⟨enrichSamples_ok_of_all_mapped m recs,
   enrichSamples_error_mem m recs,
   fun _ _ => ⟨rfl, rfl, rfl, rfl, rfl, rfl⟩⟩

/-- C3 amended witness: the rewrite evaluated at a concrete record and
map, with the all-mapped hypothesis discharged. -/
theorem client_merge_amended_witness :
    (∃ es, enrichSamples [("x", 3)] [⟨"x", "a", "b", 0, "cat"⟩] = .ok es ∧
      ∀ i : Nat, es.get? i =
        (([⟨"x", "a", "b", 0, "cat"⟩] : List CmpSample).get? i).bind
          (fun r => (lookupMap [("x", 3)] r.instruction).map (enrichWith r))) ∧
    (enrichWith ⟨"x", "a", "b", 0, "cat"⟩ 3).category = "Client_" ++ toString 3 ∧
    (enrichWith ⟨"x", "a", "b", 0, "cat"⟩ 3).domain = "cat" ∧
    (enrichWith ⟨"x", "a", "b", 0, "cat"⟩ 3).instruction = "x" ∧
    (enrichWith ⟨"x", "a", "b", 0, "cat"⟩ 3).output_A = "a" ∧
    (enrichWith ⟨"x", "a", "b", 0, "cat"⟩ 3).output_B = "b" ∧
    (enrichWith ⟨"x", "a", "b", 0, "cat"⟩ 3).choice = 0 :=
  ⟨(client_merge_amended [("x", 3)] [⟨"x", "a", "b", 0, "cat"⟩]).1
    (fun r hr => by
      rw [List.mem_singleton] at hr
      subst hr
      rfl),
   (client_merge_amended [("x", 3)] [⟨"x", "a", "b", 0, "cat"⟩]).2.2
    ⟨"x", "a", "b", 0, "cat"⟩ 3⟩

/-- A concrete record with a choice outside the set 0, 1. -/
def outOfRangeSample : EnrichedSample :=
  ⟨"q", "ra", "rb", 2, "Client_0", "cat"⟩

/-- C4 counterexample: a training list containing choice 2 is shaped
without any error, and the letter mapping produces `" C"` (and `" @"` for
the mirrored copy), letters other than `" A"` and `" B"`. -/
theorem choice_validation_cex :
    (shapeByChoice [outOfRangeSample] [] []).1.map (fun s => s.choice) =
      [" C", " @"] ∧
    (" C" ≠ " A" ∧ " C" ≠ " B") := by
  exact ⟨rfl, by decide, by decide⟩

/-- C4 amended: the shaper validates nothing: every record's integer choice
`c`, in range or not, is rendered as the string of a space followed by
`chr(c + 65)`; 0 and 1 give `" A"` and `" B"`, while 2 gives `" C"`. -/
theorem choice_render_amended (train : List EnrichedSample)
    (val test : List CmpSample) :
    (shapeByChoice train val test).1.map (fun s => s.choice) =
      (augmentTrain train).map (fun s => renderChoice s.choice) ∧
    renderChoice 0 = " A" ∧ renderChoice 1 = " B" ∧ renderChoice 2 = " C" := by
  refine ⟨?_, by rfl, by rfl, by rfl⟩
  simp only [shapeByChoice, List.map_map]
  rfl

/-- The final dedup accumulator is the initial one extended by the kept
instructions. -/
theorem dedupStep_fst (l : List RawRec) : ∀ seen : List String,
    (dedupStep seen l).1 =
      seen ++ ((dedupStep seen l).2).map (fun r => r.instruction) := by
  induction l with
  | nil => intro seen; simp [dedupStep]
  | cons r rs ih =>
    intro seen
    by_cases h : r.instruction ∈ seen
    · simp [dedupStep, h, ih]
    · simp only [dedupStep, if_neg h]
      rw [ih]
      simp

/-- The kept records of one dedup pass form a subsequence of the input. -/
theorem dedupStep_sublist (l : List RawRec) : ∀ seen : List String,
    (dedupStep seen l).2.Sublist l := by
  induction l with
  | nil => intro seen; simp [dedupStep]
  | cons r rs ih =>
    intro seen
    by_cases h : r.instruction ∈ seen
    · simp only [dedupStep, if_pos h]
      exact (ih seen).cons r
    · simp only [dedupStep, if_neg h]
      exact (ih (seen ++ [r.instruction])).cons₂ r

/-- No kept record's instruction was already in the accumulator. -/
theorem dedupStep_kept_not_seen (l : List RawRec) : ∀ seen : List String,
    ∀ r ∈ (dedupStep seen l).2, r.instruction ∉ seen := by
  induction l with
  | nil => intro seen r hr; simp [dedupStep] at hr
  | cons q rs ih =>
    intro seen r hr
    by_cases h : q.instruction ∈ seen
    · rw [dedupStep, if_pos h] at hr
      exact ih seen r hr
    · rw [dedupStep, if_neg h] at hr
      rcases List.mem_cons.mp hr with rfl | hr2
      · exact h
      · intro hmem
        exact ih (seen ++ [q.instruction]) r hr2 (by simp [hmem])

/-- The kept instructions of one dedup pass are pairwise distinct. -/
theorem dedupStep_nodup (l : List RawRec) : ∀ seen : List String,
    (((dedupStep seen l).2).map (fun r => r.instruction)).Nodup := by
  induction l with
  | nil => intro seen; simp [dedupStep]
  | cons q rs ih =>
    intro seen
    by_cases h : q.instruction ∈ seen
    · simpa [dedupStep, h] using ih seen
    · simp only [dedupStep, if_neg h, List.map_cons, List.nodup_cons]
      refine ⟨?_, ih (seen ++ [q.instruction])⟩
      intro hmem
      obtain ⟨r, hr, he⟩ := List.mem_map.mp hmem
      exact dedupStep_kept_not_seen rs (seen ++ [q.instruction]) r hr
        (by simp [he])

/-- Every input instruction ends up in the final accumulator. -/
theorem dedupStep_covers (l : List RawRec) : ∀ seen : List String,
    ∀ r ∈ l, r.instruction ∈ (dedupStep seen l).1 := by
  induction l with
  | nil => intro seen r hr; simp at hr
  | cons q rs ih =>
    intro seen r hr
    have hsub : ∀ s₀ : List String, s₀ ⊆ (dedupStep s₀ rs).1 := by
      intro s₀ x hx
      rw [dedupStep_fst]
      exact List.mem_append_left _ hx
    by_cases h : q.instruction ∈ seen
    · rw [dedupStep, if_pos h]
      rcases List.mem_cons.mp hr with rfl | hr2
      · exact hsub seen h
      · exact ih seen r hr2
    · rw [dedupStep, if_neg h]
      rcases List.mem_cons.mp hr with rfl | hr2
      · exact hsub (seen ++ [r.instruction]) (by simp)
      · exact ih (seen ++ [q.instruction]) r hr2

/-- A dedup pass over an appended list is the pass over the first part
followed by a pass over the second part from the extended accumulator. -/
theorem dedupStep_append (xs ys : List RawRec) : ∀ seen : List String,
    (dedupStep seen (xs ++ ys)).2 =
      (dedupStep seen xs).2 ++ (dedupStep (dedupStep seen xs).1 ys).2 ∧
    (dedupStep seen (xs ++ ys)).1 = (dedupStep (dedupStep seen xs).1 ys).1 := by
  induction xs with
  | nil => intro seen; simp [dedupStep]
  | cons q rs ih =>
    intro seen
    by_cases h : q.instruction ∈ seen
    · simpa [dedupStep, h] using ih seen
    · simp only [List.cons_append, dedupStep, if_neg h]
      obtain ⟨h1, h2⟩ := ih (seen ++ [q.instruction])
      exact ⟨by simp [h1], h2⟩

/-- C5 counterexample: an instruction seen in the train split is discarded
from the validation split by `_download_shp`, though a per-split
first-occurrence dedup would keep it there. -/
theorem dedup_per_split_cex :
    downloadShpBuild [⟨"x", "a"⟩] [⟨"x", "b"⟩] [] =
      ([⟨"x", "a"⟩], [], []) ∧
    dedupSplitAlone [⟨"x", "b"⟩] = [⟨"x", "b"⟩] ∧
    ([] : List RawRec) ≠ [(⟨"x", "b"⟩ : RawRec)] := by
  exact ⟨rfl, rfl, by decide⟩

/-- C5 amended: `_download_shp` deduplicates globally across the splits in
the order train, validation, test — the concatenated outputs equal the
first-occurrence dedup of the concatenated inputs; hence no two records in
any (or even across) returned splits share an instruction, each split's
output is a subsequence of its input (order follows first occurrence), and
every input instruction is represented in some output. -/
theorem dedup_global_amended (t v u : List RawRec) :
    (downloadShpBuild t v u).1 ++ (downloadShpBuild t v u).2.1 ++
      (downloadShpBuild t v u).2.2 = dedupSplitAlone (t ++ v ++ u) ∧
    (((downloadShpBuild t v u).1 ++ (downloadShpBuild t v u).2.1 ++
      (downloadShpBuild t v u).2.2).map (fun r => r.instruction)).Nodup ∧
    (downloadShpBuild t v u).1.Sublist t ∧
    (downloadShpBuild t v u).2.1.Sublist v ∧
    (downloadShpBuild t v u).2.2.Sublist u ∧
    (∀ r ∈ t ++ v ++ u, ∃ q ∈ (downloadShpBuild t v u).1 ++
      (downloadShpBuild t v u).2.1 ++ (downloadShpBuild t v u).2.2,
      q.instruction = r.instruction) := by
  have hflat : (downloadShpBuild t v u).1 ++ (downloadShpBuild t v u).2.1 ++
      (downloadShpBuild t v u).2.2 = dedupSplitAlone (t ++ v ++ u) := by
    simp only [downloadShpBuild, dedupSplitAlone]
    obtain ⟨e1, e2⟩ := dedupStep_append (t ++ v) u []
    obtain ⟨f1, f2⟩ := dedupStep_append t v []
    rw [e1, f1, f2]
  refine ⟨hflat, ?_, ?_, ?_, ?_, ?_⟩
  · rw [hflat]
    exact dedupStep_nodup (t ++ v ++ u) []
  · exact dedupStep_sublist t []
  · exact dedupStep_sublist v _
  · exact dedupStep_sublist u _
  · intro r hr
    have hcov := dedupStep_covers (t ++ v ++ u) [] r hr
    rw [dedupStep_fst] at hcov
    simp only [List.nil_append] at hcov
    obtain ⟨q, hq, he⟩ := List.mem_map.mp hcov
    exact ⟨q, by rw [hflat]; exact hq, he⟩

/-- C5 amended witness: the amended dedup facts evaluated at a concrete
input with a cross-split duplicate. -/
theorem dedup_global_amended_witness :
    (downloadShpBuild [⟨"x", "a"⟩] [⟨"x", "b"⟩] []).1 ++
      (downloadShpBuild [⟨"x", "a"⟩] [⟨"x", "b"⟩] []).2.1 ++
      (downloadShpBuild [⟨"x", "a"⟩] [⟨"x", "b"⟩] []).2.2 =
      dedupSplitAlone ([⟨"x", "a"⟩] ++ [⟨"x", "b"⟩] ++ []) ∧
    (∃ q ∈ (downloadShpBuild [⟨"x", "a"⟩] [⟨"x", "b"⟩] []).1 ++
      (downloadShpBuild [⟨"x", "a"⟩] [⟨"x", "b"⟩] []).2.1 ++
      (downloadShpBuild [⟨"x", "a"⟩] [⟨"x", "b"⟩] []).2.2,
      q.instruction = RawRec.instruction ⟨"x", "b"⟩) :=
  ⟨(dedup_global_amended [⟨"x", "a"⟩] [⟨"x", "b"⟩] []).1,
   (dedup_global_amended [⟨"x", "a"⟩] [⟨"x", "b"⟩] []).2.2.2.2.2
    ⟨"x", "b"⟩ (by simp)⟩

/-- C9: `load_rlhf_dataset` discards the deduplicated train split and
returns as train the deduplicated validation records followed by the
deduplicated test records; its val list is the first half (floor) of the
deduplicated test records and its test list the remaining half; a positive
`max_num_test` truncates val and test to that many entries and leaves the
train list unchanged. -/
theorem rlhf_relabel (rawT rawV rawU : List RawRec) (m : Int) :
    (loadRlhfFull rawT rawV rawU m).1 =
      (downloadShpBuild rawT rawV rawU).2.1 ++
      (downloadShpBuild rawT rawV rawU).2.2 ∧
    (0 < m →
      (loadRlhfFull rawT rawV rawU m).2.1 =
        ((downloadShpBuild rawT rawV rawU).2.2.take
          ((downloadShpBuild rawT rawV rawU).2.2.length / 2)).take m.toNat ∧
      (loadRlhfFull rawT rawV rawU m).2.2 =
        ((downloadShpBuild rawT rawV rawU).2.2.drop
          ((downloadShpBuild rawT rawV rawU).2.2.length / 2)).take m.toNat) ∧
    (m ≤ 0 →
      (loadRlhfFull rawT rawV rawU m).2.1 =
        (downloadShpBuild rawT rawV rawU).2.2.take
          ((downloadShpBuild rawT rawV rawU).2.2.length / 2) ∧
      (loadRlhfFull rawT rawV rawU m).2.2 =
        (downloadShpBuild rawT rawV rawU).2.2.drop
          ((downloadShpBuild rawT rawV rawU).2.2.length / 2) ∧
      (loadRlhfFull rawT rawV rawU m).2.1 ++ (loadRlhfFull rawT rawV rawU m).2.2 =
        (downloadShpBuild rawT rawV rawU).2.2) := by
  by_cases hm : 0 < m
  · refine ⟨?_, fun _ => ⟨?_, ?_⟩, fun hle => absurd hm (by omega)⟩ <;>
      simp [loadRlhfFull, loadRlhfDataset, hm]
  · have hm2 : ¬ m > 0 := hm
    refine ⟨?_, fun hlt => absurd hlt hm, fun _ => ⟨?_, ?_, ?_⟩⟩ <;>
      simp [loadRlhfFull, loadRlhfDataset, hm2]

/-- C9 witness: the relabeling evaluated at concrete lists and a positive
truncation bound. -/
theorem rlhf_relabel_witness :
    (loadRlhfFull [] [⟨"a", "c"⟩] [⟨"b", "c"⟩, ⟨"d", "c"⟩] 1).1 =
      (downloadShpBuild [] [⟨"a", "c"⟩] [⟨"b", "c"⟩, ⟨"d", "c"⟩]).2.1 ++
      (downloadShpBuild [] [⟨"a", "c"⟩] [⟨"b", "c"⟩, ⟨"d", "c"⟩]).2.2 ∧
    (loadRlhfFull [] [⟨"a", "c"⟩] [⟨"b", "c"⟩, ⟨"d", "c"⟩] 1).2.1 =
      ((downloadShpBuild [] [⟨"a", "c"⟩] [⟨"b", "c"⟩, ⟨"d", "c"⟩]).2.2.take
        ((downloadShpBuild [] [⟨"a", "c"⟩]
          [⟨"b", "c"⟩, ⟨"d", "c"⟩]).2.2.length / 2)).take (1 : Int).toNat ∧
    (loadRlhfFull [] [⟨"a", "c"⟩] [⟨"b", "c"⟩, ⟨"d", "c"⟩] (-1)).2.1 ++
      (loadRlhfFull [] [⟨"a", "c"⟩] [⟨"b", "c"⟩, ⟨"d", "c"⟩] (-1)).2.2 =
      (downloadShpBuild [] [⟨"a", "c"⟩] [⟨"b", "c"⟩, ⟨"d", "c"⟩]).2.2 :=
  ⟨(rlhf_relabel [] [⟨"a", "c"⟩] [⟨"b", "c"⟩, ⟨"d", "c"⟩] 1).1,
   ((rlhf_relabel [] [⟨"a", "c"⟩] [⟨"b", "c"⟩, ⟨"d", "c"⟩] 1).2.1
     (by decide)).1,
   ((rlhf_relabel [] [⟨"a", "c"⟩] [⟨"b", "c"⟩, ⟨"d", "c"⟩] (-1)).2.2
     (by decide)).2.2⟩

/-- C6: for both tokenized-dataset caches, if all three serialized files
exist the datasets are deserialized and returned (modulo the separate
val/test truncation step) without running the build pipeline; otherwise the
build result is used, all three datasets are serialized, and they are
returned; consequently any second call finds a populated cache and never
invokes the build pipeline. -/
theorem cache_get_or_build :
    (∀ (st : CmpCache)
      (built : LLMComparisonDatasetM × LLMComparisonDatasetM ×
        LLMComparisonDatasetM) (m : Int),
      (∀ tr va te, st = ⟨some tr, some va, some te⟩ →
        loadComparisonDataset st built m =
          ((tr, shrinkCmpIf m va, shrinkCmpIf m te), st, false)) ∧
      (st.trainFile = none ∨ st.valFile = none ∨ st.testFile = none →
        loadComparisonDataset st built m =
          ((built.1, shrinkCmpIf m built.2.1, shrinkCmpIf m built.2.2),
           ⟨some built.1, some built.2.1, some built.2.2⟩, true)) ∧
      (∀ built2 m2,
        (loadComparisonDataset (loadComparisonDataset st built m).2.1
          built2 m2).2.2 = false)) ∧
    (∀ (st : ChoiceCache) (built : LLMDatasetM × LLMDatasetM × LLMDatasetM)
      (m : Int),
      (∀ tr va te, st = ⟨some tr, some va, some te⟩ →
        loadChoiceDataset st built m =
          ((tr, shrinkLLMIf m va, shrinkLLMIf m te), st, false)) ∧
      (st.trainFile = none ∨ st.valFile = none ∨ st.testFile = none →
        loadChoiceDataset st built m =
          ((built.1, shrinkLLMIf m built.2.1, shrinkLLMIf m built.2.2),
           ⟨some built.1, some built.2.1, some built.2.2⟩, true)) ∧
      (∀ built2 m2,
        (loadChoiceDataset (loadChoiceDataset st built m).2.1
          built2 m2).2.2 = false)) := by
  constructor
  · intro st built m
    obtain ⟨tf, vf, ef⟩ := st
    refine ⟨?_, ?_, ?_⟩
    · intro tr va te h
      cases h
      rfl
    · intro h
      cases tf <;> cases vf <;> cases ef <;>
        first
        | rfl
        | simp [loadComparisonDataset] at h ⊢
    · intro built2 m2
      cases tf <;> cases vf <;> cases ef <;> rfl
  · intro st built m
    obtain ⟨tf, vf, ef⟩ := st
    refine ⟨?_, ?_, ?_⟩
    · intro tr va te h
      cases h
      rfl
    · intro h
      cases tf <;> cases vf <;> cases ef <;>
        first
        | rfl
        | simp [loadChoiceDataset] at h ⊢
    · intro built2 m2
      cases tf <;> cases vf <;> cases ef <;> rfl

/-- A concrete comparison dataset for witnesses. -/
def cmpSampleDataset : LLMComparisonDatasetM :=
  ⟨⟨[[1], [2], [3]]⟩, ⟨[[4], [5], [6]]⟩⟩

/-- A concrete single dataset for witnesses. -/
def choiceSampleDataset : LLMDatasetM :=
  ⟨[[7], [8], [9]]⟩

/-- C6 witness: a populated cache is returned without invoking the build,
and a call on an empty cache builds, serializes and never rebuilds on the
following call. -/
theorem cache_get_or_build_witness :
    loadComparisonDataset
      ⟨some cmpSampleDataset, some cmpSampleDataset, some cmpSampleDataset⟩
      (cmpSampleDataset, cmpSampleDataset, cmpSampleDataset) 0 =
      ((cmpSampleDataset, shrinkCmpIf 0 cmpSampleDataset,
        shrinkCmpIf 0 cmpSampleDataset),
       ⟨some cmpSampleDataset, some cmpSampleDataset, some cmpSampleDataset⟩,
       false) ∧
    loadChoiceDataset ⟨none, none, none⟩
      (choiceSampleDataset, choiceSampleDataset, choiceSampleDataset) 0 =
      ((choiceSampleDataset, shrinkLLMIf 0 choiceSampleDataset,
        shrinkLLMIf 0 choiceSampleDataset),
       ⟨some choiceSampleDataset, some choiceSampleDataset,
        some choiceSampleDataset⟩, true) ∧
    (loadChoiceDataset
      (loadChoiceDataset ⟨none, none, none⟩
        (choiceSampleDataset, choiceSampleDataset, choiceSampleDataset) 0).2.1
      (choiceSampleDataset, choiceSampleDataset, choiceSampleDataset)
      0).2.2 = false :=
  ⟨(cache_get_or_build.1
      ⟨some cmpSampleDataset, some cmpSampleDataset, some cmpSampleDataset⟩
      (cmpSampleDataset, cmpSampleDataset, cmpSampleDataset) 0).1
      cmpSampleDataset cmpSampleDataset cmpSampleDataset rfl,
   (cache_get_or_build.2 ⟨none, none, none⟩
      (choiceSampleDataset, choiceSampleDataset, choiceSampleDataset) 0).2.1
      (Or.inl rfl),
   (cache_get_or_build.2 ⟨none, none, none⟩
      (choiceSampleDataset, choiceSampleDataset, choiceSampleDataset) 0).2.2
      (choiceSampleDataset, choiceSampleDataset, choiceSampleDataset) 0⟩

/-- C10: after a cache hit with positive `max_num_test`, the returned val
and test datasets carry their stored token-id sequences truncated to the
first `max_num_test` entries (both the win and lose sub-datasets for the
comparison shape); the train dataset and the cache state are returned
unchanged and the build pipeline does not run. -/
theorem shrink_in_place (st : CmpCache)
    (tr va te : LLMComparisonDatasetM)
    (built : LLMComparisonDatasetM × LLMComparisonDatasetM ×
      LLMComparisonDatasetM) (m : Int)
    (h : st = ⟨some tr, some va, some te⟩) (hm : 0 < m) :
    (loadComparisonDataset st built m).1.1 = tr ∧
    (loadComparisonDataset st built m).1.2.1.win_dataset.input_ids =
      va.win_dataset.input_ids.take m.toNat ∧
    (loadComparisonDataset st built m).1.2.1.lose_dataset.input_ids =
      va.lose_dataset.input_ids.take m.toNat ∧
    (loadComparisonDataset st built m).1.2.2.win_dataset.input_ids =
      te.win_dataset.input_ids.take m.toNat ∧
    (loadComparisonDataset st built m).1.2.2.lose_dataset.input_ids =
      te.lose_dataset.input_ids.take m.toNat ∧
    (loadComparisonDataset st built m).2.1 = st ∧
    (loadComparisonDataset st built m).2.2 = false ∧
    (∀ (stc : ChoiceCache) (trc vac tec : LLMDatasetM)
      (builtc : LLMDatasetM × LLMDatasetM × LLMDatasetM),
      stc = ⟨some trc, some vac, some tec⟩ →
      (loadChoiceDataset stc builtc m).1.1 = trc ∧
      (loadChoiceDataset stc builtc m).1.2.1.input_ids =
        vac.input_ids.take m.toNat ∧
      (loadChoiceDataset stc builtc m).1.2.2.input_ids =
        tec.input_ids.take m.toNat ∧
      (loadChoiceDataset stc builtc m).2.1 = stc ∧
      (loadChoiceDataset stc builtc m).2.2 = false) := by
  cases h
  refine ⟨rfl, ?_, ?_, ?_, ?_, rfl, rfl, ?_⟩
  · simp [loadComparisonDataset, shrinkCmpIf, hm, shrinkCmp, shrinkLLM]
  · simp [loadComparisonDataset, shrinkCmpIf, hm, shrinkCmp, shrinkLLM]
  · simp [loadComparisonDataset, shrinkCmpIf, hm, shrinkCmp, shrinkLLM]
  · simp [loadComparisonDataset, shrinkCmpIf, hm, shrinkCmp, shrinkLLM]
  · intro stc trc vac tec builtc hc
    cases hc
    refine ⟨rfl, ?_, ?_, rfl, rfl⟩ <;>
      simp [loadChoiceDataset, shrinkLLMIf, hm, shrinkLLM]

/-- C10 witness: the in-place truncation evaluated at a concrete populated
cache and `max_num_test = 1`. -/
theorem shrink_in_place_witness :
    (loadComparisonDataset
      ⟨some cmpSampleDataset, some cmpSampleDataset, some cmpSampleDataset⟩
      (cmpSampleDataset, cmpSampleDataset, cmpSampleDataset)
      1).1.2.1.win_dataset.input_ids =
      cmpSampleDataset.win_dataset.input_ids.take (1 : Int).toNat ∧
    (loadComparisonDataset
      ⟨some cmpSampleDataset, some cmpSampleDataset, some cmpSampleDataset⟩
      (cmpSampleDataset, cmpSampleDataset, cmpSampleDataset) 1).2.1 =
      ⟨some cmpSampleDataset, some cmpSampleDataset, some cmpSampleDataset⟩ :=
  ⟨(shrink_in_place
      ⟨some cmpSampleDataset, some cmpSampleDataset, some cmpSampleDataset⟩
      cmpSampleDataset cmpSampleDataset cmpSampleDataset
      (cmpSampleDataset, cmpSampleDataset, cmpSampleDataset) 1 rfl
      (by decide)).2.1,
   (shrink_in_place
      ⟨some cmpSampleDataset, some cmpSampleDataset, some cmpSampleDataset⟩
      cmpSampleDataset cmpSampleDataset cmpSampleDataset
      (cmpSampleDataset, cmpSampleDataset, cmpSampleDataset) 1 rfl
      (by decide)).2.2.2.2.2.1⟩

/-- `range(n, -1, -1)` is the reversal of `range(n + 1)`. -/
theorem rangeDesc_eq (n : Nat) : rangeDesc n = (List.range (n + 1)).reverse := by
  induction n with
  | zero => rfl
  | succ k ih =>
    rw [rangeDesc, ih, List.range_succ (n := k + 1)]
    simp

/-- The descending round list has `n + 1` entries. -/
theorem rangeDesc_length (n : Nat) : (rangeDesc n).length = n + 1 := by
  rw [rangeDesc_eq]
  simp

/-- The probing loop finds nothing when no candidate file exists. -/
theorem findCkpt_none (ex : String → Bool) (fn : String) :
    ∀ cands : List String, (∀ p ∈ cands, ex (p ++ fn) = false) →
    findCkpt cands ex fn = none := by
  intro cands
  induction cands with
  | nil => intro _; rfl
  | cons p ps ih =>
    intro h
    rw [findCkpt, h p (by simp), ih (fun q hq => h q (by simp [hq]))]
    rfl

/-- The probing loop returns the first candidate whose file exists, with
the candidates after it. -/
theorem findCkpt_first (ex : String → Bool) (fn : String) :
    ∀ (cands : List String) (i : Nat) (h : i < cands.length),
    ex (cands.get ⟨i, h⟩ ++ fn) = true →
    (∀ (j : Nat) (hj : j < cands.length), j < i →
      ex (cands.get ⟨j, hj⟩ ++ fn) = false) →
    findCkpt cands ex fn = some (cands.get ⟨i, h⟩, cands.drop (i + 1)) := by
  intro cands
  induction cands with
  | nil => intro i h; exact absurd h (by simp)
  | cons p ps ih =>
    intro i h hex hmin
    cases i with
    | zero =>
      rw [findCkpt]
      simp only [List.get] at hex
      rw [hex]
      rfl
    | succ k =>
      have hp : ex (p ++ fn) = false := hmin 0 (by simp) (by omega)
      rw [findCkpt, hp]
      simp only [Bool.false_eq_true, if_false]
      exact ih k (by simpa using h) (by simpa using hex)
        (fun j hj hjk => hmin (j + 1) (by simpa using hj) (by omega))

/-- C7 counterexample: with no checkpoint file present at all,
`FSChatBot.__init__` does not raise — it falls back to the raw model,
because the freshly built candidate list always has more than one entry. -/
theorem ckpt_init_no_error_cex :
    initOutcome 2 1 (fun _ => false) "ckpt" = .rawFallback ∧
    initOutcome 2 1 (fun _ => false) "ckpt" ≠ .error := by
  refine ⟨rfl, ?_⟩
  rw [show initOutcome 2 1 (fun _ => false) "ckpt" =
    NextOutcome.rawFallback from rfl]
  intro h
  exact NextOutcome.noConfusion h

/-- C7 amended: the candidate list is `final_`, the round prefixes in
descending order, then the empty one; `next_model` loads the first
candidate whose file exists; when none exists at initialization the bot
falls back to the raw model (the list always has more than one entry
then); the `ValueError` is raised only by a later `next_model` call once
the candidate list has been exhausted. -/
theorem ckpt_resolution_amended (totalRound saveFreq : Nat)
    (ex : String → Bool) (fn : String) :
    candList totalRound saveFreq =
      ["final_"] ++ ((List.range (totalRound / saveFreq + 1)).reverse.map
        (fun i => toString (i * saveFreq) ++ "_")) ++ [""] ∧
    (∀ (cands : List String) (i : Nat) (h : i < cands.length),
      ex (cands.get ⟨i, h⟩ ++ fn) = true →
      (∀ (j : Nat) (hj : j < cands.length), j < i →
        ex (cands.get ⟨j, hj⟩ ++ fn) = false) →
      nextModel cands ex fn =
        .loaded (cands.get ⟨i, h⟩) (cands.drop (i + 1))) ∧
    ((∀ p ∈ candList totalRound saveFreq, ex (p ++ fn) = false) →
      initOutcome totalRound saveFreq ex fn = .rawFallback) ∧
    nextModel [] ex fn = .error := by
  refine ⟨?_, ?_, ?_, rfl⟩
  · simp [candList, rangeDesc_eq]
  · intro cands i h hex hmin
    rw [nextModel, findCkpt_first ex fn cands i h hex hmin]
  · intro hall
    have hnone := findCkpt_none ex fn _ hall
    rw [initOutcome, nextModel, hnone]
    have hlen : (candList totalRound saveFreq).length =
        totalRound / saveFreq + 3 := by
      simp [candList, rangeDesc_length]
    have hgt : 1 < (candList totalRound saveFreq).length := by
      rw [hlen]
      exact lt_of_lt_of_le (by norm_num) (Nat.le_add_left 3 _)
    rw [if_pos hgt]

/-- C7 amended witness: the resolver evaluated at concrete candidate lists;
the second existing candidate is loaded when the first is absent, and a
fully absent set of files falls back to the raw model. -/
theorem ckpt_resolution_amended_witness :
    nextModel ["a_", "b_"] (fun s => s == "b_ckpt") "ckpt" =
      .loaded "b_" [] ∧
    initOutcome 3 2 (fun _ => false) "ckpt" = .rawFallback :=
  ⟨(ckpt_resolution_amended 0 1 (fun s => s == "b_ckpt") "ckpt").2.1
    ["a_", "b_"] 1 (by decide) (by decide)
    (fun j hj hj1 => by
      have : j = 0 := by omega
      subst this
      rfl),
   (ckpt_resolution_amended 3 2 (fun _ => false) "ckpt").2.2.1
    (fun p _ => rfl)⟩

/-- Concrete items and scorer for the evaluation-loop counterexample. -/
def cexItem1 : EvalItem := ⟨"r1", "t1", "p1", "s1"⟩

/-- Second concrete item, on which the scorer raises. -/
def cexItem2 : EvalItem := ⟨"r2", "t2", "p2", "s2"⟩

/-- A scorer that succeeds on the first item and raises on the rest. -/
def cexScorer : EvalItem → Except String (String × String) :=
  fun it => if it.title == "t1" then .ok ("c1", "sc1") else .error "boom"

/-- C8 counterexample: when the scorer raises on the second item, the
evaluation run still terminates normally and keeps the flushed block of
the first item, but the aggregate report and the JSON dump are NOT
written. -/
theorem eval_no_aggregate_cex :
    evalMain cexScorer [cexItem1, cexItem2] =
      { entries := [entryString cexItem1 "c1" "sc1"], scores := ["sc1"],
        jsonDumped := false, aggregateWritten := false } ∧
    (evalMain cexScorer [cexItem1, cexItem2]).aggregateWritten = false := by
  exact ⟨rfl, rfl⟩

/-- On an exception-free run the loop emits every block and finishes. -/
theorem runEvalLoop_all_ok (f : EvalItem → Except String (String × String)) :
    ∀ (items : List EvalItem) (acc sc : List String),
    (∀ it ∈ items, (okEntry f it).isSome) →
    (runEvalLoop f items acc sc).1 = acc ++ items.filterMap (okEntry f) ∧
    (runEvalLoop f items acc sc).2.2 = true := by
  intro items
  induction items with
  | nil => intro acc sc _; simp [runEvalLoop]
  | cons it rest ih =>
    intro acc sc h
    have hit := h it (by simp)
    cases hf : f it with
    | error e => rw [okEntry, hf] at hit; simp at hit
    | ok p =>
      have ho : okEntry f it = some (entryString it p.1 p.2) := by
        rw [okEntry, hf]
      rw [runEvalLoop, hf]
      obtain ⟨h1, h2⟩ := ih (acc ++ [entryString it p.1 p.2]) (sc ++ [p.2])
        (fun j hj => h j (by simp [hj]))
      refine ⟨?_, h2⟩
      rw [h1, List.filterMap_cons, ho]
      simp

/-- A run that hits an exception keeps exactly the blocks of the items
before it and reports the loop as interrupted. -/
theorem runEvalLoop_fail (f : EvalItem → Except String (String × String))
    (it : EvalItem) (hfail : okEntry f it = none) :
    ∀ (pre post : List EvalItem) (acc sc : List String),
    (∀ j ∈ pre, (okEntry f j).isSome) →
    (runEvalLoop f (pre ++ it :: post) acc sc).1 =
      acc ++ pre.filterMap (okEntry f) ∧
    (runEvalLoop f (pre ++ it :: post) acc sc).2.2 = false := by
  intro pre
  induction pre with
  | nil =>
    intro post acc sc _
    cases hf : f it with
    | error e => simp [runEvalLoop, hf]
    | ok p => rw [okEntry, hf] at hfail; cases hfail
  | cons j rest ih =>
    intro post acc sc hok
    have hj := hok j (by simp)
    cases hf : f j with
    | error e => rw [okEntry, hf] at hj; simp at hj
    | ok p =>
      have ho : okEntry f j = some (entryString j p.1 p.2) := by
        rw [okEntry, hf]
      rw [List.cons_append, runEvalLoop, hf]
      obtain ⟨h1, h2⟩ := ih post (acc ++ [entryString j p.1 p.2]) (sc ++ [p.2])
        (fun q hq => hok q (by simp [hq]))
      refine ⟨?_, h2⟩
      rw [h1, List.filterMap_cons, ho]
      simp

/-- C8 amended: the evaluation run always terminates normally; an
exception-free run writes every per-item block, the JSON dump and the
aggregate report; a run whose scorer raises mid-loop keeps exactly the
per-item blocks flushed before the failing item but skips the JSON dump
and the aggregate report. -/
theorem eval_best_effort_amended
    (f : EvalItem → Except String (String × String))
    (items : List EvalItem) :
    ((∀ it ∈ items, (okEntry f it).isSome) →
      (evalMain f items).aggregateWritten = true ∧
      (evalMain f items).jsonDumped = true ∧
      (evalMain f items).entries = items.filterMap (okEntry f)) ∧
    (∀ (pre : List EvalItem) (it : EvalItem) (post : List EvalItem),
      items = pre ++ it :: post →
      (∀ j ∈ pre, (okEntry f j).isSome) → okEntry f it = none →
      (evalMain f items).aggregateWritten = false ∧
      (evalMain f items).jsonDumped = false ∧
      (evalMain f items).entries = pre.filterMap (okEntry f)) := by
  constructor
  · intro h
    obtain ⟨h1, h2⟩ := runEvalLoop_all_ok f items [] [] h
    exact ⟨by simp [evalMain, h2], by simp [evalMain, h2],
      by simp [evalMain, h1]⟩
  · intro pre it post hsplit hok hfail
    subst hsplit
    obtain ⟨h1, h2⟩ := runEvalLoop_fail f it hfail pre post [] [] hok
    exact ⟨by simp [evalMain, h2], by simp [evalMain, h2],
      by simp [evalMain, h1]⟩

/-- C8 amended witness: both branches evaluated at concrete scorers. -/
theorem eval_best_effort_amended_witness :
    ((evalMain (fun _ => .ok ("c", "s")) [cexItem1]).aggregateWritten = true ∧
     (evalMain (fun _ => .ok ("c", "s")) [cexItem1]).jsonDumped = true ∧
     (evalMain (fun _ => .ok ("c", "s")) [cexItem1]).entries =
       [cexItem1].filterMap (okEntry (fun _ => .ok ("c", "s")))) ∧
    ((evalMain cexScorer [cexItem1, cexItem2]).aggregateWritten = false ∧
     (evalMain cexScorer [cexItem1, cexItem2]).jsonDumped = false ∧
     (evalMain cexScorer [cexItem1, cexItem2]).entries =
       [cexItem1].filterMap (okEntry cexScorer)) :=
  ⟨(eval_best_effort_amended (fun _ => .ok ("c", "s")) [cexItem1]).1
    (fun _ _ => rfl),
   (eval_best_effort_amended cexScorer [cexItem1, cexItem2]).2
    [cexItem1] cexItem2 []
    rfl
    (fun j hj => by
      rw [List.mem_singleton] at hj
      subst hj
      decide)
    (by decide)⟩

end FedBiscuit
